import Mathlib

/-!
# Sound Processing Lab — verification of the filter engine

A shallow embedding of `sound_processing_lab.py`. Samples are embedded as
exact rationals (`ℚ`): numpy float arrays become `List ℚ`, float literals
such as `0.4` are the exact decimal rationals, and the only irrational
ingredient — `np.sin` in the chorus modulation — is embedded as `Real.sin`.
Python's `int()` (truncation toward zero) is `pyint` / `pyintR`; the
in-place loops `for n in range(N): Y[n] = ...` over a `np.zeros` array are
the fold `loopSet`.  Division by zero, which in numpy produces NaN/Inf with
a warning, is total division in `ℚ` (yielding `0`); the silent-buffer
degeneracy is analysed explicitly where it matters.
-/

namespace SoundLab

/-- Python `int(x)` on a real-valued quantity: truncation toward zero
(rational case). -/
def pyint (x : ℚ) : ℤ := if 0 ≤ x then ⌊x⌋ else ⌈x⌉

/-- Python `int(x)` on a real-valued quantity: truncation toward zero
(real case, used only where `np.sin` forces `ℝ`). -/
noncomputable def pyintR (x : ℝ) : ℤ := if 0 ≤ x then ⌊x⌋ else ⌈x⌉

/-- Array read `A[i]` for an in-bounds index (out-of-range reads default to
`0`; the safety analysis shows every read performed by the filters is in
bounds, and numpy's negative-index wraparound is never reached because the
loops guard every potentially negative index). -/
def rd (A : List ℚ) (i : ℕ) : ℚ := A.getD i 0

/-- `np.max(np.abs(X))` — the peak absolute amplitude of a buffer.
(`np.max` raises on an empty array; here the empty fold yields `0`, and
every property that depends on the peak assumes a non-empty buffer.) -/
def npMaxAbs (X : List ℚ) : ℚ := (X.map abs).foldr max 0

/-- `normalize` from the source: `X / np.max(np.abs(X))`, elementwise
division of the buffer by its peak absolute amplitude. -/
def normalize (X : List ℚ) : List ℚ := X.map (fun x => x / npMaxAbs X)

/-- The `Sound_file` class: sample data plus metadata fields, as set by the
constructor and later assigned by the filter functions. -/
structure Sound_file where
  data : List ℚ
  sf : ℕ
  filter : Option String
  filter_params : List (String × ℚ)
  file_name : Option String

/-- `create_sound_file_object(sound_data, sf)` — the `Sound_file`
constructor: `filter = None`, empty parameter dict, `file_name = None`. -/
def create_sound_file_object (sound_data : List ℚ) (sf : ℕ) : Sound_file :=
  { data := sound_data, sf := sf, filter := none, filter_params := [],
    file_name := none }

/-- The in-place filling loop `for n in range(k): Y[n] = f(Y, n)` over a
pre-allocated array `Y0` (in the source, `np.zeros` of the input's length):
`loopSet f Y0 k` is the array state after iterations `0, …, k-1`, where
iteration `n` stores `f` of the current array state at index `n`. -/
def loopSet (f : List ℚ → ℕ → ℚ) (Y0 : List ℚ) : ℕ → List ℚ
  | 0 => Y0
  | n + 1 => (loopSet f Y0 n).set n (f (loopSet f Y0 n) n)

/-- `int((t*10**(-3))*X.sf)` — a delay time `t` in milliseconds converted
to a whole number of samples at sample rate `sf`. -/
def int_ms_delay (t : ℚ) (sf : ℕ) : ℤ := pyint (t * (10 : ℚ) ^ (-3 : ℤ) * (sf : ℕ))

/-- The delayed-signal index computed inside the chorus loop:
`int(D*(1+fi*np.sin(2*np.pi*f/X.sf*n)))` with the default modulation depth
`fi = 0.1`, modulation frequency `f = 0.25` and base delay `t = 50` ms
(so `D = int((50*10**(-3))*sf)`). -/
noncomputable def chorus_delayed_index (sf : ℕ) (n : ℕ) : ℤ :=
  pyintR (((int_ms_delay 50 sf : ℤ) : ℝ) *
    (1 + 0.1 * Real.sin (2 * Real.pi * 0.25 / (sf : ℕ) * (n : ℕ))))

/-- The chorus filter body, parametric in the delayed-index sequence `di`
(the only non-rational ingredient): normalize the input, then for each `n`
emit `alpha*X_norm[n]` when `n - di n < 0` and
`alpha*X_norm[n] + beta*X_norm[n - di n]` otherwise, writing into a
zero-initialized output of the input's length.  Defaults `alpha = beta =
0.25`; the new object keeps the input's sample rate and records the filter
name and settings. -/
def chorusWith (di : ℕ → ℤ) (X : Sound_file) : Sound_file :=
  let alpha : ℚ := 0.25
  let beta : ℚ := 0.25
  let settings : List (String × ℚ) :=
    [("alpha", 0.25), ("beta", 0.25), ("fi", 0.1), ("f", 0.25), ("t", 50)]
  let X_norm := normalize X.data
  let Y := loopSet
    (fun _ n =>
      if (n : ℤ) - di n < 0 then alpha * rd X_norm n
      else alpha * rd X_norm n + beta * rd X_norm ((n : ℤ) - di n).toNat)
    (List.replicate X.data.length 0) X_norm.length
  let filt_obj := create_sound_file_object Y X.sf
  { filt_obj with filter := some "chorus", filter_params := settings }

/-- `chorus(X)` from the source: `chorusWith` instantiated with the
sine-modulated delayed-index sequence. -/
noncomputable def chorus (X : Sound_file) : Sound_file :=
  chorusWith (chorus_delayed_index X.sf) X

/-- `delay(X)` from the source: defaults `alpha = 0.4`, `beta = 0.15`,
`t = 430` ms; `D = int((430*10**(-3))*sf)`, `D2 = int(D*2)`; normalize the
input, then for each `n` write `X_norm[n]` when `n - D2 < 0` and otherwise
`X_norm[n] + alpha*X_norm[n-D] + beta*Y[n-D2]`, where `Y[n-D2]` reads the
output array being filled. -/
def delay (X : Sound_file) : Sound_file :=
  let alpha : ℚ := 0.4
  let beta : ℚ := 0.15
  let settings : List (String × ℚ) := [("alpha", 0.4), ("beta", 0.15), ("t", 430)]
  let D : ℤ := int_ms_delay 430 X.sf
  let D2 : ℤ := D * 2
  let X_norm := normalize X.data
  let Y := loopSet
    (fun Yc n =>
      if (n : ℤ) - D2 < 0 then rd X_norm n
      else rd X_norm n + alpha * rd X_norm ((n : ℤ) - D).toNat
        + beta * rd Yc ((n : ℤ) - D2).toNat)
    (List.replicate X.data.length 0) X_norm.length
  let filt_obj := create_sound_file_object Y X.sf
  { filt_obj with filter := some "delay", filter_params := settings }

/-- `distortion(X)` from the source: default `dist_coef = 0.2`; normalize
the input, then clip each sample to `[-dist_coef, dist_coef]` by the
three-way comparison of the source. -/
def distortion (X : Sound_file) : Sound_file :=
  let dist_coef : ℚ := 0.2
  let settings : List (String × ℚ) := [("dist_coef", 0.2)]
  let X_norm := normalize X.data
  let Y := loopSet
    (fun _ n =>
      if rd X_norm n < - dist_coef then - dist_coef
      else if rd X_norm n > dist_coef then dist_coef
      else rd X_norm n)
    (List.replicate X.data.length 0) X_norm.length
  let filt_obj := create_sound_file_object Y X.sf
  { filt_obj with filter := some "distortion", filter_params := settings }

/-- `sound_processing(int_choice, sound_obj)` from the source: start from
the `None` placeholder, then three successive independent `if` statements
reassign the result for choices `1`, `2`, `3`; the final value is
returned. -/
noncomputable def sound_processing (int_choice : ℤ) (sound_obj : Sound_file) :
    Option Sound_file :=
  let filt_obj : Option Sound_file := none
  let filt_obj := if int_choice = 1 then some (chorus sound_obj) else filt_obj
  let filt_obj := if int_choice = 2 then some (delay sound_obj) else filt_obj
  let filt_obj := if int_choice = 3 then some (distortion sound_obj) else filt_obj
  filt_obj

/-! ## Loop extraction lemmas -/

/-- The filling loop never changes the array's length. -/
theorem loopSet_length (f : List ℚ → ℕ → ℚ) (Y0 : List ℚ) (k : ℕ) :
    (loopSet f Y0 k).length = Y0.length := by
  induction k with
  | zero => rfl
  | succ n ih => simp [loopSet, ih]

/-- Iteration `n` is the only one that writes index `n`, so once it has
run, later iterations leave cell `n` unchanged. -/
theorem rd_loopSet_stable (f : List ℚ → ℕ → ℚ) (Y0 : List ℚ) {m k : ℕ}
    (h : m < k) : rd (loopSet f Y0 k) m = rd (loopSet f Y0 (m + 1)) m := by
  induction k with
  | zero => omega
  | succ j ih =>
    rcases Nat.lt_succ_iff_lt_or_eq.mp h with h1 | h1
    · rw [← ih h1]
      show rd ((loopSet f Y0 j).set j _) m = rd (loopSet f Y0 j) m
      simp [rd, List.getD_eq_getElem?_getD, List.getElem?_set_ne (by omega : j ≠ m)]
    · rw [h1]

/-- The value written at iteration `m` is `f` of the array state before
that iteration. -/
theorem rd_loopSet_write (f : List ℚ → ℕ → ℚ) (Y0 : List ℚ) {m : ℕ}
    (h : m < Y0.length) :
    rd (loopSet f Y0 (m + 1)) m = f (loopSet f Y0 m) m := by
  show rd ((loopSet f Y0 m).set m _) m = _
  have hm : m < (loopSet f Y0 m).length := by rw [loopSet_length]; exact h
  simp [rd, List.getD_eq_getElem?_getD, List.getElem?_set_self hm]

/-- After the whole loop, an in-range cell `m` holds `f` of the array state
just before iteration `m`. -/
theorem rd_loopSet_final (f : List ℚ → ℕ → ℚ) (Y0 : List ℚ) {m k : ℕ}
    (hk : m < k) (h : m < Y0.length) :
    rd (loopSet f Y0 k) m = f (loopSet f Y0 m) m :=
  (rd_loopSet_stable f Y0 hk).trans (rd_loopSet_write f Y0 h)

/-! ## Normalizer lemmas -/

theorem normalize_length (X : List ℚ) : (normalize X).length = X.length :=
  List.length_map X _

theorem rd_normalize (X : List ℚ) {i : ℕ} (h : i < X.length) :
    rd (normalize X) i = rd X i / npMaxAbs X := by
  simp [rd, normalize, List.getD_eq_getElem?_getD, List.getElem?_eq_getElem h]

theorem npMaxAbs_cons (x : ℚ) (X : List ℚ) :
    npMaxAbs (x :: X) = max |x| (npMaxAbs X) := rfl

theorem npMaxAbs_nonneg (X : List ℚ) : 0 ≤ npMaxAbs X := by
  induction X with
  | nil => exact le_refl 0
  | cons x X ih => rw [npMaxAbs_cons]; exact le_trans ih (le_max_right _ _)

theorem abs_le_npMaxAbs {a : ℚ} {X : List ℚ} (h : a ∈ X) :
    |a| ≤ npMaxAbs X := by
  induction X with
  | nil => cases h
  | cons x X ih =>
    rw [npMaxAbs_cons]
    rcases List.mem_cons.mp h with h1 | h1
    · rw [h1]; exact le_max_left _ _
    · exact le_trans (ih h1) (le_max_right _ _)

/-- A buffer with a nonzero sample has a positive peak. -/
theorem npMaxAbs_pos {a : ℚ} {X : List ℚ} (h : a ∈ X) (ha : a ≠ 0) :
    0 < npMaxAbs X :=
  lt_of_lt_of_le (abs_pos.mpr ha) (abs_le_npMaxAbs h)

/-- Dividing every sample by a positive constant divides the peak by it. -/
theorem npMaxAbs_map_div (X : List ℚ) {M : ℚ} (hM : 0 < M) :
    npMaxAbs (X.map fun x => x / M) = npMaxAbs X / M := by
  induction X with
  | nil => simp [npMaxAbs]
  | cons x X ih =>
    rw [List.map_cons, npMaxAbs_cons, npMaxAbs_cons, ih,
      abs_div, abs_of_pos hM, max_div_div_right (le_of_lt hM)]

/-- The peak of a normalized non-silent buffer is exactly `1`. -/
theorem npMaxAbs_normalize {a : ℚ} {X : List ℚ} (h : a ∈ X) (ha : a ≠ 0) :
    npMaxAbs (normalize X) = 1 := by
  have hM : 0 < npMaxAbs X := npMaxAbs_pos h ha
  rw [normalize, npMaxAbs_map_div X hM, div_self (ne_of_gt hM)]

/-! ## The computed output buffers, extracted -/

theorem delay_data (X : Sound_file) :
    (delay X).data = loopSet
      (fun Yc n =>
        if (n : ℤ) - int_ms_delay 430 X.sf * 2 < 0 then rd (normalize X.data) n
        else rd (normalize X.data) n
          + 0.4 * rd (normalize X.data) ((n : ℤ) - int_ms_delay 430 X.sf).toNat
          + 0.15 * rd Yc ((n : ℤ) - int_ms_delay 430 X.sf * 2).toNat)
      (List.replicate X.data.length 0) (normalize X.data).length := rfl

theorem chorusWith_data (di : ℕ → ℤ) (X : Sound_file) :
    (chorusWith di X).data = loopSet
      (fun _ n =>
        if (n : ℤ) - di n < 0 then 0.25 * rd (normalize X.data) n
        else 0.25 * rd (normalize X.data) n
          + 0.25 * rd (normalize X.data) ((n : ℤ) - di n).toNat)
      (List.replicate X.data.length 0) (normalize X.data).length := rfl

theorem distortion_data (X : Sound_file) :
    (distortion X).data = loopSet
      (fun _ n =>
        if rd (normalize X.data) n < - (0.2 : ℚ) then - (0.2 : ℚ)
        else if rd (normalize X.data) n > (0.2 : ℚ) then (0.2 : ℚ)
        else rd (normalize X.data) n)
      (List.replicate X.data.length 0) (normalize X.data).length := rfl

/-! ## Arithmetic facts about the delay lengths -/

/-- For a nonnegative delay time, Python's `int()` truncation agrees with
the mathematical floor of `t/1000 * sf`. -/
theorem int_ms_delay_eq_floor (t : ℚ) (ht : 0 ≤ t) (sf : ℕ) :
    int_ms_delay t sf = ⌊t / 1000 * (sf : ℚ)⌋ := by
  have harg : t * (10 : ℚ) ^ (-3 : ℤ) * (sf : ℕ) = t / 1000 * (sf : ℚ) := by
    have h10 : (10 : ℚ) ^ (-3 : ℤ) = 1 / 1000 := by norm_num
    rw [h10]; ring
  rw [int_ms_delay, pyint, harg, if_pos (by positivity)]

theorem int_ms_delay_nonneg (t : ℚ) (ht : 0 ≤ t) (sf : ℕ) :
    0 ≤ int_ms_delay t sf := by
  rw [int_ms_delay_eq_floor t ht]
  exact Int.le_floor.mpr (by push_cast; positivity)

/-- At any sample rate `sf ≥ 3`, the delay filter's base delay
`D = int(0.43*sf)` is at least one sample. -/
theorem delay_D_pos {sf : ℕ} (hsf : 3 ≤ sf) : 1 ≤ int_ms_delay 430 sf := by
  rw [int_ms_delay_eq_floor 430 (by norm_num)]
  refine Int.le_floor.mpr ?_
  have h3 : (3 : ℚ) ≤ (sf : ℚ) := by exact_mod_cast hsf
  push_cast
  nlinarith

/-! ## The chorus delayed index: truncation is floor, and it is
nonnegative, because the modulation factor `1 + 0.1*sin(...)` is at least
`0.9` and the base delay is a nonnegative number of samples. -/

theorem chorus_modulation_nonneg (sf n : ℕ) :
    0 ≤ ((int_ms_delay 50 sf : ℤ) : ℝ) *
      (1 + 0.1 * Real.sin (2 * Real.pi * 0.25 / (sf : ℕ) * (n : ℕ))) := by
  have hD : (0 : ℝ) ≤ ((int_ms_delay 50 sf : ℤ) : ℝ) := by
    exact_mod_cast int_ms_delay_nonneg 50 (by norm_num) sf
  have hs : -1 ≤ Real.sin (2 * Real.pi * 0.25 / (sf : ℕ) * (n : ℕ)) :=
    Real.neg_one_le_sin _
  nlinarith

theorem chorus_delayed_index_eq_floor (sf n : ℕ) :
    chorus_delayed_index sf n =
      ⌊((int_ms_delay 50 sf : ℤ) : ℝ) *
        (1 + 0.1 * Real.sin (2 * Real.pi * 0.25 / (sf : ℕ) * (n : ℕ)))⌋ := by
  rw [chorus_delayed_index, pyintR, if_pos (chorus_modulation_nonneg sf n)]

theorem chorus_delayed_index_nonneg (sf n : ℕ) :
    0 ≤ chorus_delayed_index sf n := by
  rw [chorus_delayed_index_eq_floor]
  exact Int.le_floor.mpr (by exact_mod_cast chorus_modulation_nonneg sf n)

theorem npMaxAbs_replicate_zero (k : ℕ) :
    npMaxAbs (List.replicate k (0 : ℚ)) = 0 := by
  induction k with
  | zero => rfl
  | succ j ih => rw [List.replicate_succ, npMaxAbs_cons, ih]; simp

/-! ## The claims -/

/-- C3: the distortion filter is purely elementwise on the normalized
input: every output sample is `clamp(X_norm[n], -0.2, 0.2)` for the
default `dist_coef = 0.2`, and hence has absolute value at most `0.2`. -/
theorem distortion_clamp_bounded (X : Sound_file) (n : ℕ)
    (hn : n < X.data.length) :
    rd (distortion X).data n
      = max (-(0.2 : ℚ)) (min (0.2 : ℚ) (rd (normalize X.data) n)) ∧
    |rd (distortion X).data n| ≤ (0.2 : ℚ) := by
  have hlen : n < (List.replicate X.data.length (0 : ℚ)).length := by simpa using hn
  have hk : n < (normalize X.data).length := by rw [normalize_length]; exact hn
  rw [distortion_data, rd_loopSet_final _ _ hk hlen]
  constructor
  · split_ifs with h1 h2
    · rw [min_eq_right (by linarith), max_eq_left (by linarith)]
    · rw [min_eq_left (by linarith), max_eq_right (by linarith)]
    · rw [min_eq_right (by linarith), max_eq_right (by linarith)]
  · split_ifs with h1 h2 <;> rw [abs_le] <;> constructor <;> linarith

/-- Witness for C3 at the buffer `[5]`, sample rate `1`, index `0`. -/
theorem distortion_clamp_bounded_witness :
    |rd (distortion (create_sound_file_object [5] 1)).data 0| ≤ (0.2 : ℚ) :=
  (distortion_clamp_bounded (create_sound_file_object [5] 1) 0
    (by simp [create_sound_file_object])).2

/-- C4: for a non-empty, non-silent buffer, `normalize` divides every
sample by the peak absolute amplitude, and the peak of the result is
exactly `1` (the `1e-9` tolerance of the spec is not needed: in the exact
rational model equality is on the nose). -/
theorem normalize_pointwise_peak {a : ℚ} {X : List ℚ} (ha : a ∈ X)
    (ha0 : a ≠ 0) :
    (∀ i, i < X.length → rd (normalize X) i = rd X i / npMaxAbs X) ∧
    npMaxAbs (normalize X) = 1 :=
  ⟨fun _ hi => rd_normalize X hi, npMaxAbs_normalize ha ha0⟩

/-- Witness for C4 at the buffer `[1, -2]`. -/
theorem normalize_pointwise_peak_witness :
    npMaxAbs (normalize [(1 : ℚ), -2]) = 1 ∧
    rd (normalize [(1 : ℚ), -2]) 0 = rd [(1 : ℚ), -2] 0 / npMaxAbs [(1 : ℚ), -2] := by
  have h := normalize_pointwise_peak (X := [(1 : ℚ), -2]) (a := -2)
    (by simp) (by norm_num)
  exact ⟨h.2, h.1 0 (by norm_num)⟩

/-- C5 (code bug): the source's `normalize` has no silent-buffer guard: on
an all-zero buffer its peak is `0` and it divides by zero, silently
producing a degenerate output (all zeros in the rational model; NaN/Inf
under numpy, with only a runtime warning) instead of raising the
`DegenerateInputError` the spec requires, and the filters run on it. -/
theorem normalize_silent_no_error :
    npMaxAbs (List.replicate 100 (0 : ℚ)) = 0 ∧
    normalize (List.replicate 100 (0 : ℚ)) = List.replicate 100 (0 : ℚ) := by
  refine ⟨npMaxAbs_replicate_zero 100, ?_⟩
  rw [normalize, npMaxAbs_replicate_zero, List.map_replicate]
  norm_num

/-- C6: all three filters produce an output buffer of exactly the input
buffer's length (the output array is allocated as `np.zeros` of the
input's length and the loop only writes in place). -/
theorem filters_length_preserving (X : Sound_file) :
    (chorus X).data.length = X.data.length ∧
    (delay X).data.length = X.data.length ∧
    (distortion X).data.length = X.data.length := by
  refine ⟨?_, ?_, ?_⟩ <;>
    simp [chorus, chorusWith_data, delay_data, distortion_data, loopSet_length]

/-- C7: normalization is idempotent on non-silent buffers, exactly in the
rational model: the second pass divides by a peak of `1`. -/
theorem normalize_idempotent {a : ℚ} {X : List ℚ} (ha : a ∈ X)
    (ha0 : a ≠ 0) : normalize (normalize X) = normalize X := by
  have h1 := npMaxAbs_normalize ha ha0
  conv_lhs => rw [normalize, h1]
  simp

/-- Witness for C7 at the buffer `[1, -2]`. -/
theorem normalize_idempotent_witness :
    normalize (normalize [(1 : ℚ), -2]) = normalize [(1 : ℚ), -2] :=
  normalize_idempotent (a := -2) (by simp) (by norm_num)

/-- C8 (code bug): for any selection outside `{1, 2, 3}` the dispatch
`sound_processing` silently returns its `None` placeholder (marked
`# TEST!!` in the source) — no filter runs, but no
`InvalidSelectionError`-style failure is signalled either, contrary to
the spec's requirement that an unrecognized selection be treated as a
fatal contract violation rather than a recoverable placeholder result. -/
theorem sound_processing_invalid_choice (c : ℤ) (h1 : c ≠ 1) (h2 : c ≠ 2)
    (h3 : c ≠ 3) (obj : Sound_file) : sound_processing c obj = none := by
  simp [sound_processing, h1, h2, h3]

/-- Witness for C8 at the out-of-range selection `4`. -/
theorem sound_processing_invalid_choice_witness :
    sound_processing 4 (create_sound_file_object [1] 1) = none :=
  sound_processing_invalid_choice 4 (by norm_num) (by norm_num) (by norm_num) _

/-- C9: each filter keeps the input's sample rate in the output object,
sets the output's filter name and parameter record to the defaults of the
algorithm that ran, and leaves the fresh object's `file_name` unset (the
embedding is pure because the source never stores into the input object:
it only reads `X.data` and `X.sf` and writes locals, the fresh output
array, and the freshly constructed object's fields). -/
theorem filters_fresh_metadata (X : Sound_file) :
    ((chorus X).sf = X.sf ∧ (chorus X).filter = some "chorus" ∧
      (chorus X).filter_params
        = [("alpha", 0.25), ("beta", 0.25), ("fi", 0.1), ("f", 0.25), ("t", 50)] ∧
      (chorus X).file_name = none) ∧
    ((delay X).sf = X.sf ∧ (delay X).filter = some "delay" ∧
      (delay X).filter_params = [("alpha", 0.4), ("beta", 0.15), ("t", 430)] ∧
      (delay X).file_name = none) ∧
    ((distortion X).sf = X.sf ∧ (distortion X).filter = some "distortion" ∧
      (distortion X).filter_params = [("dist_coef", 0.2)] ∧
      (distortion X).file_name = none) :=
  ⟨⟨rfl, rfl, rfl, rfl⟩, ⟨rfl, rfl, rfl, rfl⟩, ⟨rfl, rfl, rfl, rfl⟩⟩

/-- C10: with default parameters every array read in the chorus and delay
loops is in bounds: the chorus delayed index is nonnegative (the
modulation factor `1 + 0.1*sin` is at least `0.9` and the base delay is a
nonnegative sample count), so in the else-branch `n - delayed_index` lies
in `[0, n]`; in the delay loop the else-branch guard `n - D2 ≥ 0` forces
both `n - D ≥ 0` and `n - D2 ≥ 0`, so no read uses a negative
(wrap-around) index. -/
theorem filters_index_safety (sf : ℕ) (_hsf : 0 < sf) (n : ℕ) :
    0 ≤ chorus_delayed_index sf n ∧
    (0 ≤ (n : ℤ) - chorus_delayed_index sf n →
      ((n : ℤ) - chorus_delayed_index sf n).toNat ≤ n) ∧
    (0 ≤ (n : ℤ) - int_ms_delay 430 sf * 2 →
      0 ≤ (n : ℤ) - int_ms_delay 430 sf ∧
      ((n : ℤ) - int_ms_delay 430 sf).toNat ≤ n ∧
      ((n : ℤ) - int_ms_delay 430 sf * 2).toNat ≤ n) := by
  have h1 := chorus_delayed_index_nonneg sf n
  have h2 := int_ms_delay_nonneg 430 (by norm_num) sf
  refine ⟨h1, fun h => ?_, fun h => ?_⟩ <;> omega

/-- Witness for C10 at sample rate `1`, index `0`. -/
theorem filters_index_safety_witness : 0 ≤ chorus_delayed_index 1 0 :=
  (filters_index_safety 1 (by norm_num) 0).1

/-- A cell that iteration `m` has already written holds the same value in
any later loop state. -/
theorem rd_loopSet_final_read (f : List ℚ → ℕ → ℚ) (Y0 : List ℚ)
    {m n k : ℕ} (hm : m < n) (hn : n < k) :
    rd (loopSet f Y0 n) m = rd (loopSet f Y0 k) m :=
  (rd_loopSet_stable f Y0 hm).trans (rd_loopSet_stable f Y0 (lt_trans hm hn)).symm

/-- C2: the chorus filter computes, at every index `n`, the delayed index
`⌊D * (1 + fi*sin(2π*f/sf*n))⌋` with `D = ⌊t/1000*sf⌋` and the defaults
`alpha = beta = 0.25`, `fi = 0.1`, `f = 0.25`, `t = 50`, and emits
`alpha*X_norm[n]` before the fade-in boundary and
`alpha*X_norm[n] + beta*X_norm[n - delayedIndex]` after it; the right-hand
side reads only the normalized input, never the output being built.
(Python's `int()` truncation agrees with the claim's floor because the
truncated quantity is nonnegative.) -/
theorem chorus_pointwise (X : Sound_file) (_hsf : 0 < X.sf) (n : ℕ)
    (hn : n < X.data.length) (D di : ℤ)
    (hD : D = ⌊(50 : ℚ) / 1000 * (X.sf : ℚ)⌋)
    (hdi : di = ⌊(D : ℝ) *
      (1 + 0.1 * Real.sin (2 * Real.pi * 0.25 / (X.sf : ℝ) * (n : ℝ)))⌋) :
    rd (chorus X).data n =
      if (n : ℤ) - di < 0 then 0.25 * rd (normalize X.data) n
      else 0.25 * rd (normalize X.data) n
        + 0.25 * rd (normalize X.data) ((n : ℤ) - di).toNat := by
  have hDc : int_ms_delay 50 X.sf = D := by
    rw [hD, int_ms_delay_eq_floor 50 (by norm_num)]
  have hdi2 : chorus_delayed_index X.sf n = di := by
    rw [chorus_delayed_index_eq_floor, hDc, hdi]
  have hk : n < (normalize X.data).length := by rw [normalize_length]; exact hn
  have hlen : n < (List.replicate X.data.length (0 : ℚ)).length := by simpa using hn
  rw [chorus, chorusWith_data, rd_loopSet_final _ _ hk hlen, hdi2]

/-- Witness for C2 at the buffer `[1]`, sample rate `1`, index `0` (where
the delayed index is `⌊0 * (1 + 0.1*sin 0)⌋ = 0` and the else branch
emits `0.25*1 + 0.25*1`). -/
theorem chorus_pointwise_witness :
    rd (chorus (create_sound_file_object [1] 1)).data 0 = 1 / 2 := by
  have h := chorus_pointwise (create_sound_file_object [1] 1)
    (by simp [create_sound_file_object]) 0 (by simp [create_sound_file_object]) 0 0
    (by show (0 : ℤ) = ⌊(50 : ℚ) / 1000 * ((1 : ℕ) : ℚ)⌋; push_cast; norm_num)
    (by norm_num)
  rw [h, if_neg (by norm_num)]
  show 0.25 * rd (normalize [1]) 0 + 0.25 * rd (normalize [1]) ((0 : ℤ) - 0).toNat = 1 / 2
  norm_num [SoundLab.normalize, npMaxAbs, rd]

/-- C1 (amended): the delay recurrence
`Y[n] = X[n] + alpha*X[n-D] + beta*Y[n-D2]` past the causality window, and
`Y[n] = X[n]` inside it, holds for every sample rate `sf ≥ 3` — that is,
whenever `D = ⌊0.43*sf⌋ ≥ 1`, so that the feedback term reads an output
cell at a strictly smaller index, already finalized.  (For `sf ∈ {1, 2}`
the code has `D2 = 0` and the feedback term reads the not-yet-written
current cell, still zero-initialized — see the counterexample.) -/
theorem delay_recurrence (X : Sound_file) (hsf : 3 ≤ X.sf) (n : ℕ)
    (hn : n < X.data.length) (D D2 : ℤ)
    (hD : D = ⌊(430 : ℚ) / 1000 * (X.sf : ℚ)⌋) (hD2 : D2 = 2 * D) :
    ((n : ℤ) - D2 < 0 → rd (delay X).data n = rd (normalize X.data) n) ∧
    (0 ≤ (n : ℤ) - D2 →
      rd (delay X).data n
        = rd (normalize X.data) n
          + 0.4 * rd (normalize X.data) ((n : ℤ) - D).toNat
          + 0.15 * rd (delay X).data ((n : ℤ) - D2).toNat) := by
  have hDc : int_ms_delay 430 X.sf = D := by
    rw [hD, int_ms_delay_eq_floor 430 (by norm_num)]
  have hD1 : 1 ≤ D := hDc ▸ delay_D_pos hsf
  have hk : n < (normalize X.data).length := by rw [normalize_length]; exact hn
  have hlen : n < (List.replicate X.data.length (0 : ℚ)).length := by simpa using hn
  constructor
  · intro hlt
    rw [delay_data, rd_loopSet_final _ _ hk hlen, hDc]
    have hlt2 : (n : ℤ) - D * 2 < 0 := by omega
    simp only [if_pos hlt2]
  · intro hge
    rw [delay_data, rd_loopSet_final _ _ hk hlen, hDc]
    have hge2 : ¬ ((n : ℤ) - D * 2 < 0) := by omega
    simp only [if_neg hge2]
    have hDD2 : D2 = D * 2 := by rw [hD2]; ring
    rw [hDD2]
    congr 1
    congr 1
    have hm : ((n : ℤ) - D * 2).toNat < n := by omega
    exact rd_loopSet_final_read _ _ hm hk

/-- Witness for C1 at the buffer `[2]`, sample rate `3` (so `D = 1`,
`D2 = 2`): index `0` is inside the causality window and passes the
normalized sample through. -/
theorem delay_recurrence_witness :
    rd (delay (create_sound_file_object [2] 3)).data 0 = 1 := by
  have h := delay_recurrence (create_sound_file_object [2] 3) (le_refl 3) 0
    (by simp [create_sound_file_object]) 1 2
    (by show (1 : ℤ) = ⌊(430 : ℚ) / 1000 * ((3 : ℕ) : ℚ)⌋; push_cast; norm_num)
    (by norm_num)
  rw [h.1 (by norm_num)]
  show rd (normalize [2]) 0 = 1
  norm_num [SoundLab.normalize, npMaxAbs, rd]

/-- Counterexample to C1 as stated for every `sf > 0`: at sample rate `1`
with buffer `[1]`, the claim's `D = ⌊0.43⌋ = 0` and `D2 = 0`, index `0`
satisfies `n - D2 ≥ 0`, yet the code's output `Y[0] = 7/5` (the feedback
term read the pre-initialized zero, not the final output value) violates
the claimed equation `Y[0] = X[0] + 0.4*X[0] + 0.15*Y[0]`. -/
theorem delay_recurrence_cex :
    0 ≤ (0 : ℤ) - 2 * ⌊(430 : ℚ) / 1000 * ((1 : ℕ) : ℚ)⌋ ∧
    ¬ (rd (delay (create_sound_file_object [1] 1)).data 0
        = rd (normalize [1]) 0
          + 0.4 * rd (normalize [1])
              ((0 : ℤ) - ⌊(430 : ℚ) / 1000 * ((1 : ℕ) : ℚ)⌋).toNat
          + 0.15 * rd (delay (create_sound_file_object [1] 1)).data
              ((0 : ℤ) - 2 * ⌊(430 : ℚ) / 1000 * ((1 : ℕ) : ℚ)⌋).toNat) := by
  have hfl : ⌊(430 : ℚ) / 1000 * ((1 : ℕ) : ℚ)⌋ = 0 := by push_cast; norm_num
  have hval : rd (delay (create_sound_file_object [1] 1)).data 0 = 7 / 5 := by
    simp [delay, create_sound_file_object, int_ms_delay, pyint, loopSet, rd,
      SoundLab.normalize, npMaxAbs]
    norm_num
  have hnorm : rd (normalize [1]) 0 = 1 := by
    norm_num [SoundLab.normalize, npMaxAbs, rd]
  have hidx1 : ((0 : ℤ) - 0).toNat = 0 := by omega
  have hidx2 : ((0 : ℤ) - 2 * 0).toNat = 0 := by omega
  rw [hfl, hidx1, hidx2, hval, hnorm]
  constructor
  · norm_num
  · norm_num

end SoundLab
